import Mathlib

set_option maxHeartbeats 1000000
set_option maxRecDepth 4000

/-!
Verification of the transaction preparation and fee resolution engine of the
Kyoko swap bot (`src/p.py`), as a shallow embedding in Lean 4.

Modelling conventions:
* Python values flowing through the loosely-typed transaction descriptor are
  modelled by `PyVal` (integers, strings, `None`, and a catch-all for other
  values that only records its truthiness).  A descriptor (`dict`) is an
  association list.
* Fallible Python code (`try`/`except`, functions that may raise) is modelled
  with `Option`/`Except`; `none`/`.error` is "an exception was raised".
* The gas buffer multiplication `int(x * 1.2)` (the constructor default
  `gas_buffer_multiplier=1.2`) is modelled as `6 * x / 5` with `Nat` floor
  division.  For every `x` below `2 ^ 49` the IEEE-754 double computation
  `int(x * 1.2)` performed by the source agrees with `⌊6x/5⌋`: the relative
  error of the double nearest to 1.2 is below `2 ^ -53`, which cannot move the
  product across an integer boundary at these magnitudes.
* `bytes.decode(errors="replace")` is modelled by an executable UTF-8 decoder
  that emits U+FFFD for ill-formed input.  The number of replacement
  characters emitted for one ill-formed multi-byte sequence is modelled
  per-sequence/per-byte and may differ from CPython's maximal-subpart rule;
  no theorem below depends on the count of replacement characters, only on
  valid decodes and (non-)emptiness.
* `str.strip`/`str.split` whitespace is modelled by ASCII whitespace
  (space, tab, CR, LF); the claims only exercise these characters.
-/

/-- A Python value as it can occur in the Kyoko transaction descriptor:
an `int`, a `str`, `None`, or any other object (only its truthiness is
relevant to the modelled code; conversion to `int` raises on it). -/
inductive PyVal where
  | vint (i : Int)
  | vstr (s : String)
  | vnone
  | vother (t : Bool)
  deriving DecidableEq

/-- Python truthiness of a `PyVal` (`bool(x)`): nonzero int, nonempty string;
`None` is falsy; for other objects the recorded flag. -/
def PyVal.truthy : PyVal → Bool
  | .vint i => i != 0
  | .vstr s => s != ""
  | .vnone => false
  | .vother t => t

/-- Python `a or b`: returns `a` when `a` is truthy, else `b`. -/
def pyOr (a b : PyVal) : PyVal := if a.truthy then a else b

/-- A Python dict with string keys, as an association list. -/
abbrev PyDict := List (String × PyVal)

/-- `d.get(k)` — `None` when the key is missing. -/
def getV (d : PyDict) (k : String) : PyVal :=
  match d.find? (fun kv => kv.1 == k) with
  | some kv => kv.2
  | none => .vnone

/-- `d.get(k, dflt)`. -/
def getVD (d : PyDict) (k : String) (dflt : PyVal) : PyVal :=
  match d.find? (fun kv => kv.1 == k) with
  | some kv => kv.2
  | none => dflt

/-- ASCII whitespace, for `str.strip()` / `str.split()`. -/
def isPyWS (c : Char) : Bool := c.isWhitespace

/-- `str.strip()` on the character list of a string. -/
def pyStripChars (l : List Char) : List Char :=
  ((l.dropWhile isPyWS).reverse.dropWhile isPyWS).reverse

/-- Decimal digit value of a character, if any. -/
def decDigit? (c : Char) : Option Nat :=
  if '0' ≤ c ∧ c ≤ '9' then some (c.toNat - 48) else none

/-- Hexadecimal digit value of a character, if any (both cases). -/
def hexDigitVal? (c : Char) : Option Nat :=
  if '0' ≤ c ∧ c ≤ '9' then some (c.toNat - 48)
  else if 'a' ≤ c ∧ c ≤ 'f' then some (c.toNat - 87)
  else if 'A' ≤ c ∧ c ≤ 'F' then some (c.toNat - 55)
  else none

/-- Digit run of Python `int(s, base)` after the first digit: single
underscores are permitted between digits, nowhere else. -/
def digitRun? (dv : Char → Option Nat) (base : Nat) : List Char → Nat → Option Nat
  | [], acc => some acc
  | c :: rest, acc =>
    if c = '_' then
      match rest with
      | c2 :: rest2 =>
        match dv c2 with
        | some d => digitRun? dv base rest2 (base * acc + d)
        | none => none
      | [] => none
    else
      match dv c with
      | some d => digitRun? dv base rest (base * acc + d)
      | none => none

/-- A non-empty digit run (no leading underscore). -/
def parseNatRun? (dv : Char → Option Nat) (base : Nat) : List Char → Option Nat
  | [] => none
  | c :: rest =>
    match dv c with
    | some d => digitRun? dv base rest d
    | none => none

/-- Optional sign in front of a digit body, as accepted by Python `int`. -/
def parseSigned? (core : List Char → Option Nat) : List Char → Option Int
  | '-' :: rest => (core rest).map (fun n => -(n : Int))
  | '+' :: rest => (core rest).map (fun n => (n : Int))
  | l => (core l).map (fun n => (n : Int))

/-- Body of `int(s, 16)` after an optional `0x`/`0X`: Python additionally
permits one underscore directly after the prefix. -/
def parse16tail (l : List Char) : Option Nat :=
  match l with
  | c :: rest => if c = '_' then parseNatRun? hexDigitVal? 16 rest
                 else parseNatRun? hexDigitVal? 16 (c :: rest)
  | [] => none

/-- Unsigned body of Python `int(s, 16)`: optional `0x`/`0X` prefix, then
hex digits. -/
def parse16core (l : List Char) : Option Nat :=
  match l with
  | c0 :: c1 :: rest =>
    if c0 == '0' && (c1 == 'x' || c1 == 'X') then parse16tail rest
    else parseNatRun? hexDigitVal? 16 (c0 :: c1 :: rest)
  | _ => parseNatRun? hexDigitVal? 16 l

/-- Unsigned body of Python `int(s)` (base 10). -/
def parse10core (l : List Char) : Option Nat := parseNatRun? decDigit? 10 l

/-- `x.startswith("0x") or x.startswith("0X")`. -/
def startsWith0x (l : List Char) : Bool :=
  match l with
  | c0 :: c1 :: _ => c0 == '0' && (c1 == 'x' || c1 == 'X')
  | _ => false

/-- `hex_or_int_to_int` (p.py lines 19-28): an `int` is returned unchanged; a
string is stripped, then parsed as hex when it starts with `0x`/`0X`, else as
decimal; any other type raises (`none`). -/
def hex_or_int_to_int : PyVal → Option Int
  | .vint i => some i
  | .vstr s =>
    let l := pyStripChars s.toList
    if startsWith0x l then parseSigned? parse16core l
    else parseSigned? parse10core l
  | .vnone => none
  | .vother _ => none

/-- The 4-byte `Error(string)` selector `0x08c379a0`. -/
def errorSelector : List Nat := [8, 195, 121, 160]

/-- `int.from_bytes(l, "big")`. -/
def beBytesToNat (l : List Nat) : Nat := l.foldl (fun acc b => 256 * acc + b) 0

/-- `bytes.fromhex`: pairs of hex digits, spaces permitted between pairs;
`none` models the `ValueError` on malformed input. -/
def bytesFromHex? : List Char → Option (List Nat)
  | [] => some []
  | c :: rest =>
    if c = ' ' then bytesFromHex? rest
    else
      match rest with
      | [] => none
      | c2 :: rest2 =>
        match hexDigitVal? c, hexDigitVal? c2 with
        | some hi, some lo => (bytesFromHex? rest2).map (fun bs => (16 * hi + lo) :: bs)
        | _, _ => none

/-- The U+FFFD replacement character. -/
def repl : Char := Char.ofNat 0xFFFD

/-- A decoded scalar value with its minimal value for the encoding length
(overlong, surrogate and out-of-range code points become U+FFFD). -/
def uchar (lo cp : Nat) : Char :=
  if lo ≤ cp ∧ cp ≤ 0x10FFFF ∧ ¬(0xD800 ≤ cp ∧ cp ≤ 0xDFFF) then Char.ofNat cp else repl

/-- UTF-8 continuation byte test. -/
def isContByte (b : Nat) : Bool := decide (128 ≤ b ∧ b < 192)

/-- Number of continuation bytes a lead byte announces. -/
def utf8NeedCont (b : Nat) : Nat :=
  if b < 192 then 0 else if b < 224 then 1 else if b < 240 then 2
  else if b < 248 then 3 else 0

/-- The run of valid continuation bytes at the front of `rest`, capped at
`need`. -/
def utf8ContPre (rest : List Nat) (need : Nat) : List Nat :=
  (rest.take need).takeWhile isContByte

/-- The character decoded at a lead byte `b` followed by `rest` (U+FFFD when
the sequence is ill-formed or incomplete). -/
def utf8CharOf (b : Nat) (rest : List Nat) : Char :=
  if b < 128 then Char.ofNat b
  else if b < 192 then repl
  else if b < 224 then
    if (utf8ContPre rest 1).length = 1 then
      uchar 128 ((b - 192) * 64 + (rest.getD 0 0 - 128))
    else repl
  else if b < 240 then
    if (utf8ContPre rest 2).length = 2 then
      uchar 2048 ((b - 224) * 4096 + (rest.getD 0 0 - 128) * 64 + (rest.getD 1 0 - 128))
    else repl
  else if b < 248 then
    if (utf8ContPre rest 3).length = 3 then
      uchar 65536 ((b - 240) * 262144 + (rest.getD 0 0 - 128) * 4096
        + (rest.getD 1 0 - 128) * 64 + (rest.getD 2 0 - 128))
    else repl
  else repl

/-- How many bytes of `rest` the sequence led by `b` consumes beyond the
lead byte: all announced continuations when present, the whole remainder
when the input is truncated inside the sequence, none otherwise. -/
def utf8Consume (b : Nat) (rest : List Nat) : Nat :=
  let need := utf8NeedCont b
  if need = 0 then 0
  else if (utf8ContPre rest need).length = need then need
  else if (utf8ContPre rest need).length = rest.length then rest.length
  else 0

/-- UTF-8 decoding with replacement of ill-formed sequences, on byte values;
the fuel dominates the list length, so one byte list decodes in at most
`length` steps. -/
def utf8AuxF : Nat → List Nat → List Char
  | 0, _ => []
  | _ + 1, [] => []
  | fuel + 1, b :: rest =>
    utf8CharOf b rest :: utf8AuxF fuel (rest.drop (utf8Consume b rest))

/-- `bytes.decode(errors="replace")`. -/
def utf8DecodeReplace (bs : List Nat) : String := String.mk (utf8AuxF (bs.length + 1) bs)

/-- `data_hex[2:]` when `data_hex.startswith("0x")` (lowercase only, exactly
as in the source). -/
def drop0xChars (l : List Char) : List Char :=
  match l with
  | c0 :: c1 :: rest => if c0 == '0' && c1 == 'x' then rest else c0 :: c1 :: rest
  | _ => l

/-- Body of `decode_revert_reason` after the emptiness check, on the
character list of the input string (p.py lines 40-57). -/
def decodeRevertChars (cs : List Char) : String :=
  match bytesFromHex? (drop0xChars cs) with
  | none => ""
  | some b =>
    if b.length < 4 then ""
    else if b.take 4 ≠ errorSelector then ""
    else if b.length < 68 then ""
    else utf8DecodeReplace ((b.drop 68).take (beBytesToNat ((b.drop 36).take 32)))

/-- `decode_revert_reason` (p.py lines 31-57).  `none` models a `None`
argument; the function is total — every exception path of the source is one
of the explicit `""` results. -/
def decode_revert_reason : Option String → String
  | none => ""
  | some s => if s = "" then "" else decodeRevertChars s.toList

/-- Digit character (lowercase for values 10-15). -/
def toDigitChar (d : Nat) : Char := Char.ofNat (if d < 10 then 48 + d else 87 + d)

/-- Lowercase hex rendering of a byte list. -/
def bytesToHexChars : List Nat → List Char
  | [] => []
  | b :: rest => toDigitChar (b / 16) :: toDigitChar (b % 16) :: bytesToHexChars rest

/-- `0x`-prefixed lowercase hex string of a byte list. -/
def hexStr (bs : List Nat) : String := String.mk ('0' :: 'x' :: bytesToHexChars bs)

/-- Big-endian `w`-byte rendering of `n`. -/
def natToBeBytes : Nat → Nat → List Nat
  | 0, _ => []
  | w + 1, n => natToBeBytes w (n / 256) ++ [n % 256]

/-- An ABI `Error(string)` payload: selector, offset word 32, a declared
length word, then the raw string bytes. -/
def errorPayload (len : Nat) (rb : List Nat) : List Nat :=
  errorSelector ++ natToBeBytes 32 32 ++ natToBeBytes 32 len ++ rb

/-- UTF-8 bytes of the ASCII string "Insufficient balance". -/
def insufficientBytes : List Nat :=
  [0x49, 0x6e, 0x73, 0x75, 0x66, 0x66, 0x69, 0x63, 0x69, 0x65,
   0x6e, 0x74, 0x20, 0x62, 0x61, 0x6c, 0x61, 0x6e, 0x63, 0x65]

/-- Hex string of the well-formed `Error("Insufficient balance")` payload. -/
def insufficientHex : String := hexStr (errorPayload 20 insufficientBytes)

/-- Digit characters of `n` in the given base, most significant first
(fuel-driven so that it evaluates by kernel reduction). -/
def baseCharsAux (base : Nat) : Nat → Nat → List Char
  | 0, _ => []
  | fuel + 1, n =>
    if n < base then [toDigitChar n]
    else baseCharsAux base fuel (n / base) ++ [toDigitChar (n % base)]

/-- The canonical decimal string of `n` (character list). -/
def decChars (n : Nat) : List Char := baseCharsAux 10 (n + 1) n

/-- The canonical lowercase hexadecimal digit string of `n` (no prefix). -/
def hexChars (n : Nat) : List Char := baseCharsAux 16 (n + 1) n

/-- The normalized transaction intent produced by
`prepare_tx_from_kyoko_txdata` (the returned dict).  `toAddr` is the `"to"`
entry of the returned dict (`to` is reserved in Lean). -/
structure TxIntent where
  toAddr : PyVal
  data : PyVal
  value : Int
  gas : Option Int
  maxFeePerGas : Option Int
  maxPriorityFeePerGas : Option Int
  gasPrice : Option Int
  deriving DecidableEq

/-- One guarded conversion inside the shared `try` block of the fee fields:
skipped when the raw value is falsy, `error` when `hex_or_int_to_int`
raises. -/
def tryConvFee (v : PyVal) : Except Unit (Option Int) :=
  if v.truthy then
    match hex_or_int_to_int v with
    | some i => .ok (some i)
    | none => .error ()
  else .ok none

/-- The single `try`/`except` around the three fee conversions (p.py lines
186-194): a raise anywhere leaves that field and all later fields `None`. -/
def feeConvert (mf mp gp : PyVal) : Option Int × Option Int × Option Int :=
  match tryConvFee mf with
  | .error _ => (none, none, none)
  | .ok a =>
    match tryConvFee mp with
    | .error _ => (a, none, none)
    | .ok b =>
      match tryConvFee gp with
      | .error _ => (a, b, none)
      | .ok c => (a, b, c)

/-- The raw `maxFeePerGas` value: `tx_data.get("maxFeePerGas") or
tx_data.get("max_fee_per_gas")`. -/
def mfRaw (d : PyDict) : PyVal := pyOr (getV d "maxFeePerGas") (getV d "max_fee_per_gas")

/-- The raw `maxPriorityFeePerGas` value. -/
def mpRaw (d : PyDict) : PyVal :=
  pyOr (getV d "maxPriorityFeePerGas") (getV d "max_priority_fee_per_gas")

/-- The raw `gasPrice` value. -/
def gpRaw (d : PyDict) : PyVal := pyOr (getV d "gasPrice") (getV d "gas_price")

/-- `prepare_tx_from_kyoko_txdata` (p.py lines 153-204). -/
def prepare_tx_from_kyoko_txdata (tx_data : PyDict) : TxIntent :=
  let to_address := pyOr (getV tx_data "to") (pyOr (getV tx_data "to_address") (getV tx_data "toAddress"))
  let calldata := pyOr (getV tx_data "input")
    (pyOr (getV tx_data "calldata") (pyOr (getV tx_data "data") (.vstr "0x")))
  let value := getVD tx_data "value" (.vint 0)
  let gas := getV tx_data "gas"
  let value_int : Int := (hex_or_int_to_int value).getD 0
  let gas_int : Option Int := if gas = .vnone then none else hex_or_int_to_int gas
  let fees := feeConvert (mfRaw tx_data) (mpRaw tx_data) (gpRaw tx_data)
  ⟨to_address, calldata, value_int, gas_int, fees.1, fees.2.1, fees.2.2⟩

/-- The `MissingDestination` check of `execute_swap` (p.py line 289):
`if not to_address: return False`. -/
def dest_missing (i : TxIntent) : Bool := !i.toAddr.truthy

/-- A raw descriptor value that encodes a negative number: a negative `int`,
or a string whose stripped form starts with a minus sign. -/
def negEnc : PyVal → Bool
  | .vint i => decide (i < 0)
  | .vstr s => (pyStripChars s.toList).head? == some '-'
  | .vnone => false
  | .vother _ => false

/-- The guarded conversion of a raw fee value raises. -/
def convRaises (v : PyVal) : Bool := v.truthy && (hex_or_int_to_int v).isNone

/-- The value a guarded fee conversion leaves behind when it does not
raise. -/
def optConv (v : PyVal) : Option Int := if v.truthy then hex_or_int_to_int v else none

/-- Accumulating splitter for `str.split()`: `cur` holds the characters of
the current token in reverse. -/
def pyTokensAux : List Char → List Char → List String
  | [], cur => if cur = [] then [] else [String.mk cur.reverse]
  | c :: rest, cur =>
    if isPyWS c then
      if cur = [] then pyTokensAux rest []
      else String.mk cur.reverse :: pyTokensAux rest []
    else pyTokensAux rest (c :: cur)

/-- `msg.split()`: split on whitespace runs, no empty parts. -/
def pyTokens (msg : String) : List String := pyTokensAux msg.toList []

/-- `part.startswith("0x")` (lowercase, as in the extraction scans). -/
def startsLower0x (l : List Char) : Bool :=
  match l with
  | '0' :: 'x' :: _ => true
  | _ => false

/-- `part.startswith("0x") and len(part) > 10`. -/
def isHexCandidate (t : String) : Bool := startsLower0x t.toList && t.length > 10

/-- The token scan shared by Steps A and B: the first whitespace-separated
token that looks like hex data and decodes to a non-empty reason. -/
def firstHexReason (msg : String) : Option String :=
  (pyTokens msg).findSome? fun part =>
    if isHexCandidate part then
      let r := decode_revert_reason (some part)
      if r ≠ "" then some r else none
    else none

/-- First index at which `needle` occurs in `hay`, scanning left to right. -/
def substrIdxAux (needle : List Char) : List Char → Nat → Option Nat
  | [], i => if needle.isPrefixOf ([] : List Char) then some i else none
  | c :: t, i => if needle.isPrefixOf (c :: t) then some i else substrIdxAux needle t (i + 1)

/-- `hay.find(needle)` as an `Option` (`none` for "not found"); `isSome`
models `needle in hay`. -/
def substrIdx (needle hay : List Char) : Option Nat := substrIdxAux needle hay 0

/-- The characters of `"execution reverted"`. -/
def erChars : List Char := "execution reverted".toList

/-- Step A revert-reason extraction (p.py lines 223-241): scan tokens through
the decoder; fall back to the suffix starting at `"execution reverted"`, else
the raw message. -/
def extract_reason_A (msg : String) : String :=
  match firstHexReason msg with
  | some r => r
  | none =>
    match substrIdx erChars msg.toList with
    | some i => String.mk (msg.toList.drop i)
    | none => msg

/-- Step B revert-reason update (p.py lines 247-258): scan tokens, keeping a
non-empty stored reason (`revert_reason or reason`); when still empty, use
the whole message only if it contains `"execution reverted"`. -/
def update_reason_B (stored : String) (est_msg : String) : String :=
  let r1 := match firstHexReason est_msg with
            | some r => if stored ≠ "" then stored else r
            | none => stored
  if r1 = "" then
    if (substrIdx erChars est_msg.toList).isSome then est_msg else r1
  else r1

/-- `simulate_call_and_estimate` (p.py lines 206-260) as a function of the
outcomes of the two node calls: `callErr` is the `eth_call` exception message
if it raised, `estResult` the gas estimate or the exception message. -/
def simulate_call_and_estimate (callErr : Option String) (estResult : Except String Nat) :
    Option Nat × String :=
  let revert0 := match callErr with | none => "" | some msg => extract_reason_A msg
  match estResult with
  | .ok g => (some g, revert0)
  | .error m => (none, update_reason_B revert0 m)

/-- `int(x * 1.2)` with the default buffer: `⌊6x/5⌋` (see the header note on
the float model). -/
def buffered (x : Nat) : Nat := 6 * x / 5

/-- `⌈x * 1.2⌉ = ⌈6x/5⌉`, the operation the specification ascribes to the
gas buffer. -/
def ceilBuffered (x : Nat) : Nat := (6 * x + 4) / 5

/-- The estimation-failure fallback of the gas decision (p.py lines 344-349):
buffer the API gas if positive, else fail (`return False`, i.e.
`GasUnavailable`). -/
def gas_fallback (gas_from_api : Int) : Option Nat :=
  if 0 < gas_from_api then some (buffered gas_from_api.toNat) else none

/-- The gas decision of `execute_swap` (p.py lines 287, 334-349).
`gas_int` is the normalized API gas hint, `est_gas` the estimation result
(`none`: estimation raised).  `none` models aborting the attempt with
`GasUnavailable`: no transaction is built or sent. -/
def resolve_gas (gas_int : Option Int) (est_gas : Option Nat) : Option Nat :=
  let gas_from_api : Int := gas_int.getD 0
  match est_gas with
  | some e =>
    if e ≠ 0 then some (buffered (max gas_from_api (e : Int)).toNat)
    else gas_fallback gas_from_api
  | none => gas_fallback gas_from_api

/-- The `baseFeePerGas` entry of a block header: key absent, key present with
value `None`, or a value. -/
inductive BaseFeeField where
  | absent
  | null
  | val (n : Nat)
  deriving DecidableEq

/-- A block header, reduced to the field the engine reads. -/
structure BlockInfo where
  baseFee : BaseFeeField
  deriving DecidableEq

/-- The node state consulted during one preparation attempt (assumed stable
within the attempt): the pending and latest block lookups (`none`: the RPC
call raises) and the suggested gas price. -/
structure ChainEnv where
  pending : Option BlockInfo
  latest : Option BlockInfo
  nodeGasPrice : Nat
  deriving DecidableEq

/-- `"baseFeePerGas" in blk and blk["baseFeePerGas"] is not None`. -/
def hasBaseFee (b : BlockInfo) : Bool :=
  match b.baseFee with
  | .val _ => true
  | _ => false

/-- `supports_eip1559` (p.py lines 98-109): check the pending block; only
when that lookup raises, fall back to the latest block. -/
def supports_eip1559 (env : ChainEnv) : Bool :=
  match env.pending with
  | some blk => hasBaseFee blk
  | none =>
    match env.latest with
    | some blk => hasBaseFee blk
    | none => false

/-- `w3.to_wei("1", "gwei")`. -/
def gwei : Nat := 1000000000

/-- Truthiness of a normalized optional fee value (`None` and `0` falsy). -/
def optTruthy (x : Option Int) : Bool := x.getD 0 != 0

/-- The fee fields finally placed on the transaction. -/
inductive FeeStrategy where
  | eip1559 (maxFee maxPriority : Int)
  | legacy (gasPrice : Int)
  deriving DecidableEq

/-- First fee pass of `execute_swap` (p.py lines 303-324): when no descriptor
fee is usable, derive EIP-1559 defaults from the pending block, or load the
node gas price into the legacy variable. -/
def fee_phase1 (mf mp gp : Option Int) (env : ChainEnv) :
    Option Int × Option Int × Option Int :=
  if optTruthy mf && optTruthy mp then (mf, mp, gp)
  else if optTruthy gp then (mf, mp, gp)
  else if supports_eip1559 env then
    match env.pending with
    | none => (mf, mp, gp)
    | some blk =>
      match blk.baseFee with
      | .val b => if b ≠ 0 then (some ((2 * b + gwei : Nat) : Int), some (gwei : Int), gp)
                  else (mf, mp, gp)
      | _ => (mf, mp, gp)
  else (mf, mp, some (env.nodeGasPrice : Int))

/-- Second fee pass of `execute_swap` (p.py lines 363-387): place the fee
fields on the final transaction. -/
def fee_phase2 (mf mp gp : Option Int) (env : ChainEnv) : FeeStrategy :=
  if optTruthy mf && optTruthy mp then .eip1559 (mf.getD 0) (mp.getD 0)
  else if optTruthy gp then .legacy (gp.getD 0)
  else if supports_eip1559 env then
    match env.pending with
    | none => .legacy (env.nodeGasPrice : Int)
    | some blk =>
      match blk.baseFee with
      | .val b => .eip1559 ((2 * b + gwei : Nat) : Int) (gwei : Int)
      | .absent => .eip1559 ((2 * 0 + gwei : Nat) : Int) (gwei : Int)
      | .null => .legacy (env.nodeGasPrice : Int)
  else .legacy (env.nodeGasPrice : Int)

/-- The complete fee strategy selection of one `execute_swap` attempt:
`fee_phase1` followed by `fee_phase2` against the same node state. -/
def resolve_fees (mf mp gp : Option Int) (env : ChainEnv) : FeeStrategy :=
  match fee_phase1 mf mp gp env with
  | (mf2, mp2, gp2) => fee_phase2 mf2 mp2 gp2 env

/-! ## Supporting lemmas -/

/-- Helper for the fee characterization: when nothing usable is supplied and
the chain does not support EIP-1559, both passes end at the node gas price. -/
theorem resolve_fees_no_support (mf mp gp : Option Int) (env : ChainEnv)
    (h1 : (optTruthy mf && optTruthy mp) = false) (h2 : optTruthy gp = false)
    (hs : supports_eip1559 env = false) :
    resolve_fees mf mp gp env = .legacy (env.nodeGasPrice : Int) := by
  unfold resolve_fees fee_phase1 fee_phase2
  by_cases hn : optTruthy (some (env.nodeGasPrice : Int)) = true
  · simp [h1, h2, hs, hn]
  · simp only [Bool.not_eq_true] at hn
    simp [h1, h2, hs, hn]

/-! ## C1 — final gas when estimation succeeds -/

/-- C1 (amended): when gas estimation succeeds with a nonzero estimate `e`
and the descriptor hint is `h` (0 when absent, here assumed non-negative),
the final gas is `⌊max(h, e) * 1.2⌋` — the floor, not the ceiling, of the
buffered maximum, because the source truncates with `int(...)`. -/
theorem gas_with_estimate_floor_buffer (h : Option Int) (e : Nat)
    (hh : 0 ≤ h.getD 0) (he : e ≠ 0) :
    resolve_gas h (some e) = some (buffered (max (h.getD 0).toNat e)) := by
  have hm : (max (h.getD 0) (e : Int)).toNat = max (h.getD 0).toNat e := by omega
  simp [resolve_gas, he, hm]

/-- Witness for C1: hint 100000, estimate 150000 give exactly 180000 (the
specification's own worked example, on which floor and ceiling agree). -/
theorem gas_with_estimate_floor_buffer_witness :
    resolve_gas (some 100000) (some 150000) = some 180000 :=
  (gas_with_estimate_floor_buffer (some 100000) 150000 (by decide) (by decide)).trans
    (by decide)

/-- Counterexample for C1 as stated: with no hint and estimate 100001 the
code yields 120001 while `ceil(100001 * 1.2)` is 120002. -/
theorem gas_with_estimate_ceil_cex :
    resolve_gas none (some 100001) = some 120001 ∧ ceilBuffered 100001 = 120002 ∧
    resolve_gas none (some 100001) ≠ some (ceilBuffered 100001) := by
  refine ⟨by decide, by decide, by decide⟩

/-! ## C2 — final gas when estimation fails -/

/-- C2 (amended): when gas estimation fails, the attempt continues with
`⌊hint * 1.2⌋` (floor, not ceiling) iff the hint is positive; otherwise the
preparation fails (`GasUnavailable`, modelled by `none`: no transaction is
built or sent). -/
theorem gas_fallback_floor_buffer (h : Option Int) :
    resolve_gas h none =
      if 0 < h.getD 0 then some (buffered (h.getD 0).toNat) else none := rfl

/-- Counterexample for C2 as stated: hint 200001 yields 240001, while
`ceil(200001 * 1.2)` is 240002. -/
theorem gas_fallback_ceil_cex :
    resolve_gas (some 200001) none = some 240001 ∧ ceilBuffered 200001 = 240002 ∧
    resolve_gas (some 200001) none ≠ some (ceilBuffered 200001) := by
  refine ⟨by decide, by decide, by decide⟩

/-! ## C3 — fee strategy selection -/

/-- C3 (amended): exactly one fee strategy results, by this priority:
(1) descriptor `maxFeePerGas` and `maxPriorityFeePerGas` both present and
nonzero — EIP-1559 with those values verbatim; (2) else descriptor
`gasPrice` present and nonzero — Legacy with that value; (3) else, if the
chain supports EIP-1559: when the pending block is fetchable (it then
carries a base fee `b`), EIP-1559 with priority 1 gwei and max fee
`2*b + 1 gwei`; when the pending fetch fails, Legacy with the node gas
price; (4) else Legacy with the node gas price.  Zero-valued descriptor
fees are treated as absent by the source's truthiness tests. -/
theorem fee_strategy_priority (mf mp gp : Option Int) (env : ChainEnv) :
    resolve_fees mf mp gp env =
      if optTruthy mf && optTruthy mp then .eip1559 (mf.getD 0) (mp.getD 0)
      else if optTruthy gp then .legacy (gp.getD 0)
      else if supports_eip1559 env then
        match env.pending with
        | some blk =>
          match blk.baseFee with
          | .val b => .eip1559 ((2 * b + gwei : Nat) : Int) (gwei : Int)
          | _ => .legacy (env.nodeGasPrice : Int)
        | none => .legacy (env.nodeGasPrice : Int)
      else .legacy (env.nodeGasPrice : Int) := by
  by_cases h1 : (optTruthy mf && optTruthy mp) = true
  · simp [resolve_fees, fee_phase1, fee_phase2, h1]
  · by_cases h2 : optTruthy gp = true
    · simp [resolve_fees, fee_phase1, fee_phase2, h1, h2]
    · simp only [Bool.not_eq_true] at h1 h2
      by_cases hs : supports_eip1559 env = true
      · obtain ⟨pending, latest, node⟩ := env
        rcases pending with _ | ⟨bf⟩
        · simp [resolve_fees, fee_phase1, fee_phase2, h1, h2, hs]
        · rcases bf with _ | _ | b
          · simp [supports_eip1559, hasBaseFee] at hs
          · simp [supports_eip1559, hasBaseFee] at hs
          · by_cases hb : b = 0
            · subst hb
              simp [resolve_fees, fee_phase1, fee_phase2, h1, h2, hs]
            · have hgw : optTruthy (some ((2 * b + gwei : Nat) : Int)) = true := by
                simp only [optTruthy, gwei, Option.getD_some, bne_iff_ne, ne_eq]
                omega
              have hgw2 : optTruthy (some ((gwei : Nat) : Int)) = true := by
                simp only [optTruthy, gwei, Option.getD_some, bne_iff_ne, ne_eq]
                omega
              simp [resolve_fees, fee_phase1, fee_phase2, h1, h2, hs, hb, hgw, hgw2]
      · simp only [Bool.not_eq_true] at hs
        rw [resolve_fees_no_support mf mp gp env (by simp [h1]) h2 hs]
        simp [hs, h1, h2]

/-- Counterexample for C3 as stated: a descriptor supplying `gasPrice` as
`"0x0"` normalizes to `gasPrice = 0`; on an EIP-1559 chain (pending base fee
7, node price 5) the code selects derived EIP-1559 fees, not
`Legacy{gasPrice: 0}` as claim step (2) requires for a supplied value. -/
theorem fee_strategy_zero_gas_price_cex :
    (prepare_tx_from_kyoko_txdata [("to", .vstr "0xdead"), ("gasPrice", .vstr "0x0")]).gasPrice
      = some 0 ∧
    resolve_fees none none (some 0) ⟨some ⟨.val 7⟩, some ⟨.val 7⟩, 5⟩ =
      .eip1559 1000000014 1000000000 ∧
    resolve_fees none none (some 0) ⟨some ⟨.val 7⟩, some ⟨.val 7⟩, 5⟩ ≠ .legacy 0 := by
  refine ⟨by decide, by decide, by decide⟩

/-! ## C4 — revert-reason extraction in Step B -/

/-- A reason produced by the token scan is never the empty string. -/
theorem firstHexReason_ne_empty {msg r : String} (h : firstHexReason msg = some r) :
    r ≠ "" := by
  unfold firstHexReason at h
  obtain ⟨part, hmem, hf⟩ := List.exists_of_findSome?_eq_some h
  by_cases hc : isHexCandidate part = true
  · simp only [hc, if_true] at hf
    split at hf
    · exact (Option.some.injEq _ _ ▸ hf) ▸ (by assumption)
    · exact absurd hf (by simp)
  · simp [hc] at hf

/-- C4 (amended): Step B shares Step A's hex-token scan, and it overwrites
the stored revert reason only when that is empty; but its fallback is not
Step A's algorithm: with no decodable token it stores the whole error text
only when that text contains "execution reverted" (not the suffix from that
point), and it has no raw-text fallback (the reason stays empty
otherwise). -/
theorem stepB_reason_update (stored m : String) :
    (stored ≠ "" → update_reason_B stored m = stored) ∧
    ((firstHexReason m).isSome = true → update_reason_B "" m = extract_reason_A m) ∧
    (firstHexReason m = none →
      update_reason_B "" m = if (substrIdx erChars m.toList).isSome then m else "") ∧
    (∀ callMsg estMsg : String,
      simulate_call_and_estimate (some callMsg) (.error estMsg) =
        (none, update_reason_B (extract_reason_A callMsg) estMsg)) := by
  refine ⟨?_, ?_, ?_, fun _ _ => rfl⟩
  · intro hs
    unfold update_reason_B
    cases hfx : firstHexReason m with
    | none => simp [hs]
    | some r => simp [hs]
  · intro hsome
    obtain ⟨r, hfx⟩ := Option.isSome_iff_exists.mp hsome
    have hr : r ≠ "" := firstHexReason_ne_empty hfx
    unfold update_reason_B extract_reason_A
    simp [hfx, hr]
  · intro hfx
    unfold update_reason_B
    simp [hfx]

/-- Witness for C4: a kept stored reason; agreement with Step A on a message
carrying a decodable hex token; empty result on a plain failure text. -/
theorem stepB_reason_update_witness :
    update_reason_B "kept" "x" = "kept" ∧
    update_reason_B "" ("call failed " ++ insufficientHex) =
      extract_reason_A ("call failed " ++ insufficientHex) ∧
    update_reason_B "" "boom" = "" := by
  refine ⟨(stepB_reason_update "kept" "x").1 (by decide),
          (stepB_reason_update "" ("call failed " ++ insufficientHex)).2.1 (by decide),
          ((stepB_reason_update "" "boom").2.2.1 (by decide)).trans (by decide)⟩

/-- Counterexample for C4 as stated: on "transport glitch" (no hex token, no
"execution reverted"), Step A's algorithm yields the raw text while Step B
leaves the reason empty; and on a message containing "execution reverted",
Step A takes the suffix while Step B stores the whole message. -/
theorem stepB_not_same_algorithm_cex :
    extract_reason_A "transport glitch" = "transport glitch" ∧
    update_reason_B "" "transport glitch" = "" ∧
    update_reason_B "" "transport glitch" ≠ extract_reason_A "transport glitch" ∧
    extract_reason_A "err: execution reverted: deadline" = "execution reverted: deadline" ∧
    update_reason_B "" "err: execution reverted: deadline" =
      "err: execution reverted: deadline" := by
  refine ⟨by decide, by decide, by decide, by decide, by decide⟩

/-! ## C5 and C10 — the revert reason decoder -/

/-- Hex digit characters round-trip through `hexDigitVal?` and are never a
space. -/
theorem hexDigit_toDigitChar : ∀ d : Nat, d < 16 →
    hexDigitVal? (toDigitChar d) = some d ∧ toDigitChar d ≠ ' ' := by decide

/-- `bytes.fromhex` inverts hex rendering of genuine bytes. -/
theorem bytesFromHex_toHex (bs : List Nat) (hb : ∀ b ∈ bs, b < 256) :
    bytesFromHex? (bytesToHexChars bs) = some bs := by
  induction bs with
  | nil => rfl
  | cons b rest ih =>
    have hb256 : b < 256 := hb b (List.mem_cons_self b rest)
    have h1 : b / 16 < 16 := by omega
    have h2 : b % 16 < 16 := by omega
    obtain ⟨hv1, hs1⟩ := hexDigit_toDigitChar (b / 16) h1
    obtain ⟨hv2, _⟩ := hexDigit_toDigitChar (b % 16) h2
    have ihh := ih (fun x hx => hb x (List.mem_cons_of_mem _ hx))
    simp [bytesToHexChars, bytesFromHex?, hs1, hv1, hv2, ihh, Nat.div_add_mod]

/-- A big-endian rendering has exactly its width. -/
theorem natToBeBytes_length (w n : Nat) : (natToBeBytes w n).length = w := by
  induction w generalizing n with
  | zero => rfl
  | succ w ih => simp [natToBeBytes, ih]

/-- A big-endian rendering consists of bytes. -/
theorem natToBeBytes_mem_lt (w n : Nat) : ∀ b ∈ natToBeBytes w n, b < 256 := by
  induction w generalizing n with
  | zero => simp [natToBeBytes]
  | succ w ih =>
    intro b hb
    simp only [natToBeBytes, List.mem_append, List.mem_singleton] at hb
    rcases hb with h | h
    · exact ih _ b h
    · omega

/-- Reading back a big-endian rendering of a value within range. -/
theorem beBytes_natToBeBytes (w n : Nat) (h : n < 256 ^ w) :
    beBytesToNat (natToBeBytes w n) = n := by
  induction w generalizing n with
  | zero =>
    norm_num at h
    simp [natToBeBytes, beBytesToNat, h]
  | succ w ih =>
    have hq : n / 256 < 256 ^ w := by
      rw [Nat.div_lt_iff_lt_mul (by norm_num)]
      calc n < 256 ^ (w + 1) := h
        _ = 256 ^ w * 256 := by ring
    have ihq := ih (n / 256) hq
    unfold natToBeBytes
    unfold beBytesToNat at ihq ⊢
    rw [List.foldl_append, ihq]
    simp
    omega

/-- Lossy UTF-8 decoding of at least one byte yields at least one character
(a replacement character if nothing else). -/
theorem utf8DecodeReplace_ne_empty (b : Nat) (rest : List Nat) :
    utf8DecodeReplace (b :: rest) ≠ "" := by
  intro h
  have h2 := congrArg String.data h
  simp [utf8DecodeReplace, utf8AuxF] at h2

/-- An `Error(string)` payload over genuine bytes consists of bytes. -/
theorem errorPayload_mem_lt (len : Nat) (rb : List Nat) (hb : ∀ b ∈ rb, b < 256) :
    ∀ b ∈ errorPayload len rb, b < 256 := by
  intro b hbm
  rw [errorPayload] at hbm
  rcases List.mem_append.mp hbm with h | h
  · rcases List.mem_append.mp h with h2 | h2
    · rcases List.mem_append.mp h2 with h3 | h3
      · have h4 : b = 8 ∨ b = 195 ∨ b = 121 ∨ b = 160 := by simpa [errorSelector] using h3
        omega
      · exact natToBeBytes_mem_lt 32 32 b h3
    · exact natToBeBytes_mem_lt 32 len b h2
  · exact hb b h

/-- The decoder on the hex rendering of a byte list reduces to the byte-level
branch structure of the source. -/
theorem decode_hexStr (bs : List Nat) (hb : ∀ b ∈ bs, b < 256) :
    decode_revert_reason (some (hexStr bs)) =
      (if bs.length < 4 then ""
       else if bs.take 4 ≠ errorSelector then ""
       else if bs.length < 68 then ""
       else utf8DecodeReplace ((bs.drop 68).take (beBytesToNat ((bs.drop 36).take 32)))) := by
  have hhex := bytesFromHex_toHex bs hb
  have hne : hexStr bs ≠ "" := by
    intro h
    have h2 := congrArg String.data h
    simp [hexStr] at h2
  have hdrop : drop0xChars ('0' :: 'x' :: bytesToHexChars bs) = bytesToHexChars bs := by
    simp [drop0xChars]
  simp only [decode_revert_reason, if_neg hne]
  show decodeRevertChars ('0' :: 'x' :: bytesToHexChars bs) = _
  simp only [decodeRevertChars, hdrop, hhex]

/-- On a payload with matching selector and declared length `len`, the
decoder returns the lossy decode of the first `len` string bytes present. -/
theorem decode_payload (len : Nat) (rb : List Nat) (hb : ∀ b ∈ rb, b < 256)
    (hlen : len < 256 ^ 32) :
    decode_revert_reason (some (hexStr (errorPayload len rb))) =
      utf8DecodeReplace (rb.take len) := by
  have hmem := errorPayload_mem_lt len rb hb
  have hlen68 : (errorPayload len rb).length = 68 + rb.length := by
    simp [errorPayload, errorSelector, natToBeBytes_length]
    omega
  have hsel4 : errorSelector.length = 4 := by decide
  have hsel : (errorPayload len rb).take 4 = errorSelector := by
    have hform : errorPayload len rb =
        errorSelector ++ (natToBeBytes 32 32 ++ (natToBeBytes 32 len ++ rb)) := by
      simp [errorPayload]
    rw [hform]
    exact List.take_left' hsel4
  have h36 : (errorSelector ++ natToBeBytes 32 32).length = 36 := by
    simp [errorSelector, natToBeBytes_length]
  have hlenw : ((errorPayload len rb).drop 36).take 32 = natToBeBytes 32 len := by
    have hform : errorPayload len rb =
        (errorSelector ++ natToBeBytes 32 32) ++ (natToBeBytes 32 len ++ rb) := by
      simp [errorPayload]
    rw [hform, List.drop_left' h36]
    exact List.take_left' (natToBeBytes_length 32 len)
  have h68 : ((errorSelector ++ natToBeBytes 32 32) ++ natToBeBytes 32 len).length = 68 := by
    simp [errorSelector, natToBeBytes_length]
  have hrb : (errorPayload len rb).drop 68 = rb := by
    rw [errorPayload]
    exact List.drop_left' h68
  rw [decode_hexStr (errorPayload len rb) hmem]
  rw [if_neg (by omega), if_neg (by simp [hsel]), if_neg (by omega)]
  rw [hlenw, beBytes_natToBeBytes 32 len hlen, hrb]

/-- Any value below 256 is below `256 ^ 32`. -/
theorem small_lt_pow32 (n : Nat) (h : n < 256) : n < 256 ^ 32 :=
  lt_of_lt_of_le h (Nat.le_self_pow (by norm_num) 256)

/-- C5 (confirmed): the decoder is total (it is a Lean function; every
exception path of the source returns `""`); on absent or empty input it
returns `""`; on a well-formed `Error(string)` payload it returns exactly
the encoded string (in particular "Insufficient balance"); on non-hex
input, a non-matching 4-byte selector, or a payload shorter than
`4 + 32 + 32` bytes it returns `""`. -/
theorem decode_error_string_contract :
    (decode_revert_reason none = "" ∧ decode_revert_reason (some "") = "") ∧
    (∀ rb : List Nat, (∀ b ∈ rb, b < 256) → rb.length < 256 ^ 32 →
      decode_revert_reason (some (hexStr (errorPayload rb.length rb))) =
        utf8DecodeReplace rb) ∧
    decode_revert_reason (some insufficientHex) = "Insufficient balance" ∧
    (∀ s : String, bytesFromHex? (drop0xChars s.toList) = none →
      decode_revert_reason (some s) = "") ∧
    (∀ bs : List Nat, (∀ b ∈ bs, b < 256) → 4 ≤ bs.length → bs.take 4 ≠ errorSelector →
      decode_revert_reason (some (hexStr bs)) = "") ∧
    (∀ bs : List Nat, (∀ b ∈ bs, b < 256) → bs.length < 68 →
      decode_revert_reason (some (hexStr bs)) = "") := by
  refine ⟨⟨rfl, rfl⟩, ?_, by decide, ?_, ?_, ?_⟩
  · intro rb hb hlen
    rw [decode_payload rb.length rb hb hlen, List.take_length]
  · intro s h
    by_cases hs : s = ""
    · simp [decode_revert_reason, hs]
    · have h2 : bytesFromHex? (drop0xChars s.data) = none := h
      simp [decode_revert_reason, hs, decodeRevertChars, h2]
  · intro bs hb h4 hsel
    rw [decode_hexStr bs hb, if_neg (by omega), if_pos hsel]
  · intro bs hb h68
    rw [decode_hexStr bs hb]
    by_cases h4 : bs.length < 4
    · rw [if_pos h4]
    · rw [if_neg h4]
      by_cases hsel : bs.take 4 ≠ errorSelector
      · rw [if_pos hsel]
      · rw [if_neg hsel, if_pos h68]

/-- Witness for C5: the payload of "ab" decodes to its string bytes; a
non-hex input, a wrong selector, and a 4-byte payload all yield `""`. -/
theorem decode_error_string_contract_witness :
    decode_revert_reason (some (hexStr (errorPayload 2 [97, 98]))) =
      utf8DecodeReplace [97, 98] ∧
    decode_revert_reason (some "0xzz") = "" ∧
    decode_revert_reason (some (hexStr (List.replicate 68 0))) = "" ∧
    decode_revert_reason (some (hexStr errorSelector)) = "" ∧
    utf8DecodeReplace [97, 98] = "ab" := by
  obtain ⟨h1, h2, h3, h4, h5, h6⟩ := decode_error_string_contract
  exact ⟨h2 [97, 98] (by decide) (small_lt_pow32 2 (by norm_num)),
         h4 "0xzz" (by decide),
         h5 (List.replicate 68 0) (by decide) (by decide) (by decide),
         h6 errorSelector (by decide) (by decide),
         by decide⟩

/-- C10 (amended): when the declared length word exceeds the string bytes
actually present, the decoder does not raise and returns the lossy UTF-8
decode of exactly the bytes present after byte 68 — which is non-empty
whenever at least one byte is present (but empty when none is, contrary to
the claim's unconditional non-emptiness). -/
theorem decode_truncated_declared_length (rb : List Nat) (L : Nat)
    (hb : ∀ b ∈ rb, b < 256) (hL : L < 256 ^ 32) (hlt : rb.length < L) :
    decode_revert_reason (some (hexStr (errorPayload L rb))) = utf8DecodeReplace rb ∧
    (rb ≠ [] → decode_revert_reason (some (hexStr (errorPayload L rb))) ≠ "") := by
  have h1 := decode_payload L rb hb hL
  rw [List.take_of_length_le (le_of_lt hlt)] at h1
  refine ⟨h1, fun hne => ?_⟩
  rw [h1]
  cases rb with
  | nil => exact absurd rfl hne
  | cons b rest => exact utf8DecodeReplace_ne_empty b rest

/-- Witness for C10: declared length 5 with only the two bytes of "hi"
present decodes to "hi", a non-empty string. -/
theorem decode_truncated_declared_length_witness :
    decode_revert_reason (some (hexStr (errorPayload 5 [104, 105]))) =
      utf8DecodeReplace [104, 105] ∧
    decode_revert_reason (some (hexStr (errorPayload 5 [104, 105]))) ≠ "" ∧
    utf8DecodeReplace [104, 105] = "hi" := by
  have h := decode_truncated_declared_length [104, 105] 5 (by decide)
    (small_lt_pow32 5 (by norm_num)) (by decide)
  exact ⟨h.1, h.2 (by decide), by decide⟩

/-- Counterexample for C10 as stated: a 68-byte payload whose declared
length 5 exceeds the zero bytes present decodes to the empty string, against
the claim's "does not return the empty string". -/
theorem decode_truncated_empty_cex :
    (errorPayload 5 []).length = 68 ∧
    decode_revert_reason (some (hexStr (errorPayload 5 []))) = "" := ⟨by decide, by decide⟩

/-! ## C6 — the numeric normalizer -/

/-- Decimal digit characters: their parse value, and that they are not
underscore, sign, whitespace, or `x`/`X`. -/
theorem digitChar_facts10 : ∀ d : Nat, d < 10 →
    decDigit? (toDigitChar d) = some d ∧ toDigitChar d ≠ '_' ∧ toDigitChar d ≠ '-' ∧
    toDigitChar d ≠ '+' ∧ isPyWS (toDigitChar d) = false ∧
    (toDigitChar d == 'x') = false ∧ (toDigitChar d == 'X') = false := by decide

/-- Hexadecimal digit characters: parse value, not underscore, not
whitespace. -/
theorem digitChar_facts16 : ∀ d : Nat, d < 16 →
    hexDigitVal? (toDigitChar d) = some d ∧ toDigitChar d ≠ '_' ∧
    isPyWS (toDigitChar d) = false := by decide

/-- `digitRun?` on the empty tail. -/
theorem digitRun_nil (dv : Char → Option Nat) (base acc : Nat) :
    digitRun? dv base [] acc = some acc := by
  rw [digitRun?.eq_def]

/-- One-step reduction of `digitRun?`. -/
theorem digitRun_cons (dv : Char → Option Nat) (base : Nat) (a : Char) (t : List Char)
    (acc : Nat) :
    digitRun? dv base (a :: t) acc =
      (if a = '_' then
        (match t with
         | c2 :: rest2 =>
           (match dv c2 with
            | some d => digitRun? dv base rest2 (base * acc + d)
            | none => none)
         | [] => none)
      else
        (match dv a with
         | some d => digitRun? dv base t (base * acc + d)
         | none => none)) := by
  rw [digitRun?.eq_def]

/-- One-step reduction of `parseNatRun?`. -/
theorem parseNatRun_cons (dv : Char → Option Nat) (base : Nat) (c : Char) (rest : List Char) :
    parseNatRun? dv base (c :: rest) =
      (match dv c with
       | some d => digitRun? dv base rest d
       | none => none) := by
  rw [parseNatRun?.eq_def]

/-- Appending one more digit multiplies the parsed value by the base and
adds the digit. -/
theorem digitRun_append (dv : Char → Option Nat) (base : Nat) (l : List Char) (c : Char)
    (d : Nat) (hl : ∀ x ∈ l, x ≠ '_') (hc : c ≠ '_') (hd : dv c = some d) :
    ∀ acc, digitRun? dv base (l ++ [c]) acc =
      (digitRun? dv base l acc).map (fun v => base * v + d) := by
  induction l with
  | nil =>
    intro acc
    simp [digitRun_cons, digitRun_nil, hc, hd]
  | cons a t ih =>
    intro acc
    have ha : a ≠ '_' := hl a (List.mem_cons_self a t)
    have ht : ∀ x ∈ t, x ≠ '_' := fun x hx => hl x (List.mem_cons_of_mem _ hx)
    rw [List.cons_append, digitRun_cons dv base a (t ++ [c]) acc,
      digitRun_cons dv base a t acc, if_neg ha, if_neg ha]
    cases hda : dv a with
    | none => simp
    | some da => simp [ih ht]

/-- The canonical digit rendering of `n` parses back to `n`, is non-empty,
and consists of digit characters. -/
theorem parseRun_baseChars (dv : Char → Option Nat) (base : Nat) (hbase : 2 ≤ base)
    (hdv : ∀ d, d < base → dv (toDigitChar d) = some d)
    (hchar : ∀ d, d < base → toDigitChar d ≠ '_') :
    ∀ fuel n, n < fuel →
      parseNatRun? dv base (baseCharsAux base fuel n) = some n ∧
      baseCharsAux base fuel n ≠ [] ∧
      (∀ c ∈ baseCharsAux base fuel n, ∃ d, d < base ∧ c = toDigitChar d) := by
  intro fuel
  induction fuel with
  | zero => intro n h; omega
  | succ fuel ih =>
    intro n hn
    by_cases hsmall : n < base
    · refine ⟨?_, ?_, ?_⟩
      · simp [baseCharsAux, hsmall, parseNatRun_cons, hdv n hsmall, digitRun_nil]
      · simp [baseCharsAux, hsmall]
      · intro c hc
        simp [baseCharsAux, hsmall] at hc
        exact ⟨n, hsmall, hc⟩
    · have hrec : n / base < fuel := by
        have hd1 : n / base < n := Nat.div_lt_self (by omega) hbase
        omega
      obtain ⟨hp, hne, hcs⟩ := ih (n / base) hrec
      have hmod : n % base < base := Nat.mod_lt n (by omega)
      have hform : baseCharsAux base (fuel + 1) n =
          baseCharsAux base fuel (n / base) ++ [toDigitChar (n % base)] := by
        simp [baseCharsAux, hsmall]
      obtain ⟨c0, t, hct⟩ := List.exists_cons_of_ne_nil hne
      have hc0 : ∃ d, d < base ∧ c0 = toDigitChar d :=
        hcs c0 (by rw [hct]; exact List.mem_cons_self _ _)
      obtain ⟨d0, hd0, hc0e⟩ := hc0
      have ht : ∀ x ∈ t, x ≠ '_' := by
        intro x hx
        have hxm : x ∈ baseCharsAux base fuel (n / base) := by
          rw [hct]; exact List.mem_cons_of_mem _ hx
        obtain ⟨d, hd, rfl⟩ := hcs x hxm
        exact hchar d hd
      have hdc0 : dv c0 = some d0 := by rw [hc0e]; exact hdv d0 hd0
      have hp2 : digitRun? dv base t d0 = some (n / base) := by
        rw [hct] at hp
        simp only [parseNatRun_cons, hdc0] at hp
        exact hp
      refine ⟨?_, ?_, ?_⟩
      · rw [hform, hct, List.cons_append]
        simp only [parseNatRun_cons, hdc0]
        rw [digitRun_append dv base t (toDigitChar (n % base)) (n % base) ht
          (hchar _ hmod) (hdv _ hmod), hp2]
        simp only [Option.map_some', Option.some.injEq]
        exact Nat.div_add_mod n base
      · rw [hform]
        simp
      · intro c hc
        rw [hform] at hc
        rcases List.mem_append.mp hc with h | h
        · exact hcs c h
        · simp at h
          exact ⟨n % base, hmod, h⟩

/-- `decChars` parses back under base 10. -/
theorem decChars_spec (n : Nat) :
    parseNatRun? decDigit? 10 (decChars n) = some n ∧ decChars n ≠ [] ∧
    (∀ c ∈ decChars n, ∃ d, d < 10 ∧ c = toDigitChar d) :=
  parseRun_baseChars decDigit? 10 (by norm_num) (fun d hd => (digitChar_facts10 d hd).1)
    (fun d hd => (digitChar_facts10 d hd).2.1) (n + 1) n (by omega)

/-- `hexChars` parses back under base 16. -/
theorem hexCharsSpec (n : Nat) :
    parseNatRun? hexDigitVal? 16 (hexChars n) = some n ∧ hexChars n ≠ [] ∧
    (∀ c ∈ hexChars n, ∃ d, d < 16 ∧ c = toDigitChar d) :=
  parseRun_baseChars hexDigitVal? 16 (by norm_num) (fun d hd => (digitChar_facts16 d hd).1)
    (fun d hd => (digitChar_facts16 d hd).2.1) (n + 1) n (by omega)

/-- Dropping whitespace skips a whitespace block. -/
theorem dropWhile_ws_append (w l : List Char) (hw : ∀ c ∈ w, isPyWS c = true) :
    (w ++ l).dropWhile isPyWS = l.dropWhile isPyWS := by
  induction w with
  | nil => simp
  | cons a t ih =>
    simp [List.dropWhile_cons, hw a (List.mem_cons_self a t),
      ih (fun c hc => hw c (List.mem_cons_of_mem _ hc))]

/-- Dropping whitespace is the identity on a non-whitespace-headed list. -/
theorem dropWhile_of_nonws (l : List Char) (hl : ∀ c ∈ l, isPyWS c = false) :
    l.dropWhile isPyWS = l := by
  cases l with
  | nil => rfl
  | cons a t => simp [List.dropWhile_cons, hl a (List.mem_cons_self a t)]

/-- `str.strip` removes exactly the surrounding whitespace around a fully
non-whitespace core. -/
theorem pyStrip_sandwich (w1 w2 mid : List Char)
    (h1 : ∀ c ∈ w1, isPyWS c = true) (h2 : ∀ c ∈ w2, isPyWS c = true)
    (hm : ∀ c ∈ mid, isPyWS c = false) (hne : mid ≠ []) :
    pyStripChars (w1 ++ mid ++ w2) = mid := by
  unfold pyStripChars
  rw [List.append_assoc, dropWhile_ws_append w1 (mid ++ w2) h1]
  have hmw : (mid ++ w2).dropWhile isPyWS = mid ++ w2 := by
    obtain ⟨c0, t, rfl⟩ := List.exists_cons_of_ne_nil hne
    simp [List.dropWhile_cons, hm c0 (List.mem_cons_self c0 t)]
  rw [hmw, List.reverse_append,
    dropWhile_ws_append w2.reverse mid.reverse (fun c hc => h2 c (List.mem_reverse.mp hc)),
    dropWhile_of_nonws mid.reverse (fun c hc => hm c (List.mem_reverse.mp hc)),
    List.reverse_reverse]

/-- Without a leading sign, `parseSigned?` is the non-negative body. -/
theorem parseSigned_not_sign (core : List Char → Option Nat) (c : Char) (l : List Char)
    (h1 : c ≠ '-') (h2 : c ≠ '+') :
    parseSigned? core (c :: l) = (core (c :: l)).map (fun n => (n : Int)) := by
  unfold parseSigned?
  split
  · rename_i rest heq
    exact absurd (List.cons.inj heq).1 h1
  · rename_i rest heq
    exact absurd (List.cons.inj heq).1 h2
  · rfl

/-- C6 (confirmed): the numeric normalizer maps the native integer `n`, the
decimal string of `n`, and the `0x`-prefixed lowercase hexadecimal string of
`n` all to `n`, trimming surrounding whitespace on string inputs first. -/
theorem numeric_normalizer_roundtrip (n : Nat) (w1 w2 : List Char)
    (h1 : ∀ c ∈ w1, isPyWS c = true) (h2 : ∀ c ∈ w2, isPyWS c = true) :
    hex_or_int_to_int (.vint (n : Int)) = some (n : Int) ∧
    hex_or_int_to_int (.vstr (String.mk (w1 ++ decChars n ++ w2))) = some (n : Int) ∧
    hex_or_int_to_int (.vstr (String.mk (w1 ++ ('0' :: 'x' :: hexChars n) ++ w2))) =
      some (n : Int) := by
  obtain ⟨hp10, hne10, hc10⟩ := decChars_spec n
  obtain ⟨hp16, hne16, hc16⟩ := hexCharsSpec n
  refine ⟨rfl, ?_, ?_⟩
  · have hmid : ∀ c ∈ decChars n, isPyWS c = false := by
      intro c hc
      obtain ⟨d, hd, rfl⟩ := hc10 c hc
      exact (digitChar_facts10 d hd).2.2.2.2.1
    have hstrip : pyStripChars (String.mk (w1 ++ decChars n ++ w2)).toList = decChars n := by
      show pyStripChars (w1 ++ decChars n ++ w2) = decChars n
      exact pyStrip_sandwich w1 w2 (decChars n) h1 h2 hmid hne10
    obtain ⟨c0, t, hct⟩ := List.exists_cons_of_ne_nil hne10
    have hc0d : ∃ d, d < 10 ∧ c0 = toDigitChar d :=
      hc10 c0 (by rw [hct]; exact List.mem_cons_self _ _)
    obtain ⟨d0, hd0, hc0e⟩ := hc0d
    have hsw : startsWith0x (decChars n) = false := by
      rw [hct]
      cases t with
      | nil => rfl
      | cons c1 t2 =>
        have hx : c1 ∈ decChars n := by
          rw [hct]; exact List.mem_cons_of_mem _ (List.mem_cons_self _ _)
        obtain ⟨d, hd, hde⟩ := hc10 c1 hx
        subst hde
        obtain ⟨-, -, -, -, -, hxx, hXX⟩ := digitChar_facts10 d hd
        simp [startsWith0x, hxx, hXX]
    have hnosign1 : c0 ≠ '-' := by rw [hc0e]; exact (digitChar_facts10 d0 hd0).2.2.1
    have hnosign2 : c0 ≠ '+' := by rw [hc0e]; exact (digitChar_facts10 d0 hd0).2.2.2.1
    simp only [hex_or_int_to_int]
    rw [hstrip, hsw]
    rw [if_neg (by simp)]
    rw [hct, parseSigned_not_sign parse10core c0 t hnosign1 hnosign2]
    have hp : parse10core (c0 :: t) = some n := by
      show parseNatRun? decDigit? 10 (c0 :: t) = some n
      rw [← hct]
      exact hp10
    rw [hp]
    rfl
  · have hmid : ∀ c ∈ ('0' :: 'x' :: hexChars n), isPyWS c = false := by
      intro c hc
      simp only [List.mem_cons] at hc
      rcases hc with rfl | rfl | hc
      · decide
      · decide
      · obtain ⟨d, hd, rfl⟩ := hc16 c hc
        exact (digitChar_facts16 d hd).2.2
    have hstrip : pyStripChars (String.mk (w1 ++ ('0' :: 'x' :: hexChars n) ++ w2)).toList
        = '0' :: 'x' :: hexChars n := by
      show pyStripChars (w1 ++ ('0' :: 'x' :: hexChars n) ++ w2) = _
      exact pyStrip_sandwich w1 w2 _ h1 h2 hmid (by simp)
    have hsw : startsWith0x ('0' :: 'x' :: hexChars n) = true := rfl
    have hcore : parse16core ('0' :: 'x' :: hexChars n) = parse16tail (hexChars n) := by
      rw [parse16core.eq_def]
      rfl
    obtain ⟨c0, t, hct⟩ := List.exists_cons_of_ne_nil hne16
    have hc0d : ∃ d, d < 16 ∧ c0 = toDigitChar d :=
      hc16 c0 (by rw [hct]; exact List.mem_cons_self _ _)
    obtain ⟨d0, hd0, hc0e⟩ := hc0d
    have hund : c0 ≠ '_' := by rw [hc0e]; exact (digitChar_facts16 d0 hd0).2.1
    have htail : parse16tail (hexChars n) = parseNatRun? hexDigitVal? 16 (hexChars n) := by
      rw [hct]
      simp only [parse16tail]
      rw [if_neg hund]
    simp only [hex_or_int_to_int]
    rw [hstrip, hsw]
    rw [if_pos rfl]
    rw [parseSigned_not_sign parse16core '0' ('x' :: hexChars n) (by decide) (by decide)]
    rw [hcore, htail, hp16]
    rfl

/-- Witness for C6: `26`, `"26"` (padded with whitespace), and `"0x1a"` all
normalize to 26. -/
theorem numeric_normalizer_roundtrip_witness :
    hex_or_int_to_int (.vint 26) = some 26 ∧
    hex_or_int_to_int (.vstr (String.mk ([' '] ++ decChars 26 ++ ['\t']))) = some 26 ∧
    hex_or_int_to_int (.vstr (String.mk ([' '] ++ ('0' :: 'x' :: hexChars 26) ++ ['\t']))) =
      some 26 ∧
    decChars 26 = ['2', '6'] ∧ hexChars 26 = ['1', 'a'] ∧
    hex_or_int_to_int (.vstr "26") = some 26 ∧
    hex_or_int_to_int (.vstr "0x1a") = some 26 := by
  have h := numeric_normalizer_roundtrip 26 [' '] ['\t'] (by decide) (by decide)
  exact ⟨h.1, h.2.1, h.2.2, by decide, by decide, by decide, by decide⟩

/-! ## C7, C8 and C9 — the descriptor normalizer -/

/-- `a or b` is truthy iff either side is. -/
theorem pyOr_truthy (a b : PyVal) : (pyOr a b).truthy = (a.truthy || b.truthy) := by
  unfold pyOr
  by_cases h : a.truthy = true <;> simp [h]

/-- The destination entry of the normalized intent is the `or`-chain over
the three destination keys. -/
theorem prepare_toAddr (d : PyDict) :
    (prepare_tx_from_kyoko_txdata d).toAddr =
      pyOr (getV d "to") (pyOr (getV d "to_address") (getV d "toAddress")) := rfl

/-- C7 (amended): the destination is the first key among `to`, `to_address`,
`toAddress` whose value is truthy (non-empty, non-null, nonzero), and the
attempt fails with `MissingDestination` iff no destination key holds a
truthy value (key presence alone does not count: a present but empty `to`
is skipped).  A descriptor with only `to_address` and `calldata` yields
`(to, data, value) = (that address, that calldata, 0)`. -/
theorem destination_resolution (d : PyDict) :
    (dest_missing (prepare_tx_from_kyoko_txdata d) = true ↔
      (getV d "to").truthy = false ∧ (getV d "to_address").truthy = false ∧
      (getV d "toAddress").truthy = false) ∧
    ((getV d "to").truthy = true → (prepare_tx_from_kyoko_txdata d).toAddr = getV d "to") ∧
    ((getV d "to").truthy = false → (getV d "to_address").truthy = true →
      (prepare_tx_from_kyoko_txdata d).toAddr = getV d "to_address") ∧
    ((getV d "to").truthy = false → (getV d "to_address").truthy = false →
      (prepare_tx_from_kyoko_txdata d).toAddr = getV d "toAddress") ∧
    (prepare_tx_from_kyoko_txdata [("to_address", .vstr "0xabc"), ("calldata", .vstr "0x1234")]
      = ⟨.vstr "0xabc", .vstr "0x1234", 0, none, none, none, none⟩) := by
  refine ⟨?_, ?_, ?_, ?_, by decide⟩
  · rw [dest_missing, prepare_toAddr, pyOr_truthy, pyOr_truthy]
    simp
  · intro h
    rw [prepare_toAddr]
    simp [pyOr, h]
  · intro h1 h2
    rw [prepare_toAddr]
    simp [pyOr, h1, h2]
  · intro h1 h2
    rw [prepare_toAddr]
    simp [pyOr, h1, h2]

/-- Witness for C7: no destination key fails; a truthy `to` wins; an empty
`to` falls through to `to_address`. -/
theorem destination_resolution_witness :
    dest_missing (prepare_tx_from_kyoko_txdata [("data", .vstr "0x12")]) = true ∧
    (prepare_tx_from_kyoko_txdata [("to", .vstr "0xA"), ("to_address", .vstr "0xB")]).toAddr
      = .vstr "0xA" ∧
    (prepare_tx_from_kyoko_txdata [("to", .vstr ""), ("to_address", .vstr "0xB")]).toAddr
      = .vstr "0xB" := by
  refine ⟨(destination_resolution [("data", .vstr "0x12")]).1.mpr (by decide),
          (destination_resolution _).2.1 (by decide),
          (destination_resolution _).2.2.1 (by decide) (by decide)⟩

/-- Counterexample for C7 as stated: with `to` present but empty and
`to_address` set, the code picks `to_address` (first *present* does not
win), and with only an empty `to` present the attempt still fails with
`MissingDestination` (against the claim's "iff none of the three keys is
present"). -/
theorem destination_presence_cex :
    (prepare_tx_from_kyoko_txdata [("to", .vstr ""), ("to_address", .vstr "0xA")]).toAddr
      = .vstr "0xA" ∧
    PyVal.vstr "0xA" ≠ .vstr "" ∧
    dest_missing (prepare_tx_from_kyoko_txdata [("to", .vstr "")]) = true := by
  refine ⟨by decide, by decide, by decide⟩

/-- A guarded fee conversion raises exactly when `convRaises` says so, and
otherwise leaves `optConv`. -/
theorem fee_conv_cases (v : PyVal) :
    (convRaises v = true → tryConvFee v = .error ()) ∧
    (convRaises v = false → tryConvFee v = .ok (optConv v)) := by
  unfold convRaises tryConvFee optConv
  by_cases ht : v.truthy = true
  · cases hcv : hex_or_int_to_int v with
    | none => simp [ht, hcv]
    | some i => simp [ht, hcv]
  · simp only [Bool.not_eq_true] at ht
    simp [ht]

/-- The fee fields of the intent are the three components of the shared
`try` block. -/
theorem prepare_fee_fields (d : PyDict) :
    (prepare_tx_from_kyoko_txdata d).maxFeePerGas
        = (feeConvert (mfRaw d) (mpRaw d) (gpRaw d)).1 ∧
    (prepare_tx_from_kyoko_txdata d).maxPriorityFeePerGas
        = (feeConvert (mfRaw d) (mpRaw d) (gpRaw d)).2.1 ∧
    (prepare_tx_from_kyoko_txdata d).gasPrice
        = (feeConvert (mfRaw d) (mpRaw d) (gpRaw d)).2.2 := ⟨rfl, rfl, rfl⟩

/-- C8 (amended): the three fee fields are converted in order
`maxFeePerGas`, `maxPriorityFeePerGas`, `gasPrice` inside one shared `try`
block; the first conversion failure is swallowed but aborts the remaining
conversions, leaving the failing field and all later fields absent, while
fields converted before the failure are kept.  The fields are **not**
normalized independently. -/
theorem fee_fields_shared_try (d : PyDict) :
    (convRaises (mfRaw d) = true →
      (prepare_tx_from_kyoko_txdata d).maxFeePerGas = none ∧
      (prepare_tx_from_kyoko_txdata d).maxPriorityFeePerGas = none ∧
      (prepare_tx_from_kyoko_txdata d).gasPrice = none) ∧
    (convRaises (mfRaw d) = false → convRaises (mpRaw d) = true →
      (prepare_tx_from_kyoko_txdata d).maxFeePerGas = optConv (mfRaw d) ∧
      (prepare_tx_from_kyoko_txdata d).maxPriorityFeePerGas = none ∧
      (prepare_tx_from_kyoko_txdata d).gasPrice = none) ∧
    (convRaises (mfRaw d) = false → convRaises (mpRaw d) = false →
      convRaises (gpRaw d) = true →
      (prepare_tx_from_kyoko_txdata d).maxFeePerGas = optConv (mfRaw d) ∧
      (prepare_tx_from_kyoko_txdata d).maxPriorityFeePerGas = optConv (mpRaw d) ∧
      (prepare_tx_from_kyoko_txdata d).gasPrice = none) ∧
    (convRaises (mfRaw d) = false → convRaises (mpRaw d) = false →
      convRaises (gpRaw d) = false →
      (prepare_tx_from_kyoko_txdata d).maxFeePerGas = optConv (mfRaw d) ∧
      (prepare_tx_from_kyoko_txdata d).maxPriorityFeePerGas = optConv (mpRaw d) ∧
      (prepare_tx_from_kyoko_txdata d).gasPrice = optConv (gpRaw d)) := by
  obtain ⟨hf1, hf2, hf3⟩ := prepare_fee_fields d
  refine ⟨?_, ?_, ?_, ?_⟩
  · intro h
    have he := (fee_conv_cases (mfRaw d)).1 h
    rw [hf1, hf2, hf3]
    simp [feeConvert, he]
  · intro h1 h2
    have he1 := (fee_conv_cases (mfRaw d)).2 h1
    have he2 := (fee_conv_cases (mpRaw d)).1 h2
    rw [hf1, hf2, hf3]
    simp [feeConvert, he1, he2]
  · intro h1 h2 h3
    have he1 := (fee_conv_cases (mfRaw d)).2 h1
    have he2 := (fee_conv_cases (mpRaw d)).2 h2
    have he3 := (fee_conv_cases (gpRaw d)).1 h3
    rw [hf1, hf2, hf3]
    simp [feeConvert, he1, he2, he3]
  · intro h1 h2 h3
    have he1 := (fee_conv_cases (mfRaw d)).2 h1
    have he2 := (fee_conv_cases (mpRaw d)).2 h2
    have he3 := (fee_conv_cases (gpRaw d)).2 h3
    rw [hf1, hf2, hf3]
    simp [feeConvert, he1, he2, he3]

/-- Witness for C8: a malformed `maxFeePerGas` wipes all three fields; a
malformed `maxPriorityFeePerGas` keeps the already-converted
`maxFeePerGas` but loses `gasPrice`. -/
theorem fee_fields_shared_try_witness :
    ((prepare_tx_from_kyoko_txdata [("maxFeePerGas", .vstr "zz"), ("gasPrice", .vstr "30")]).maxFeePerGas = none ∧
     (prepare_tx_from_kyoko_txdata [("maxFeePerGas", .vstr "zz"), ("gasPrice", .vstr "30")]).maxPriorityFeePerGas = none ∧
     (prepare_tx_from_kyoko_txdata [("maxFeePerGas", .vstr "zz"), ("gasPrice", .vstr "30")]).gasPrice = none) ∧
    ((prepare_tx_from_kyoko_txdata [("maxFeePerGas", .vstr "7"), ("maxPriorityFeePerGas", .vstr "zz"), ("gasPrice", .vstr "30")]).maxFeePerGas = optConv (mfRaw [("maxFeePerGas", .vstr "7"), ("maxPriorityFeePerGas", .vstr "zz"), ("gasPrice", .vstr "30")]) ∧
     (prepare_tx_from_kyoko_txdata [("maxFeePerGas", .vstr "7"), ("maxPriorityFeePerGas", .vstr "zz"), ("gasPrice", .vstr "30")]).maxPriorityFeePerGas = none ∧
     (prepare_tx_from_kyoko_txdata [("maxFeePerGas", .vstr "7"), ("maxPriorityFeePerGas", .vstr "zz"), ("gasPrice", .vstr "30")]).gasPrice = none) ∧
    optConv (mfRaw [("maxFeePerGas", .vstr "7"), ("maxPriorityFeePerGas", .vstr "zz"), ("gasPrice", .vstr "30")]) = some 7 := by
  refine ⟨(fee_fields_shared_try _).1 (by decide),
          (fee_fields_shared_try _).2.1 (by decide) (by decide),
          by decide⟩

/-- Counterexample for C8 as stated: `"30"` normalizes to 30, yet a
descriptor with a malformed `maxFeePerGas` and that valid `gasPrice` yields
an intent whose `gasPrice` is absent, not 30. -/
theorem fee_fields_not_independent_cex :
    hex_or_int_to_int (.vstr "30") = some 30 ∧
    (prepare_tx_from_kyoko_txdata
      [("to", .vstr "0xaa"), ("maxFeePerGas", .vstr "zzz"), ("gasPrice", .vstr "30")]).maxFeePerGas = none ∧
    (prepare_tx_from_kyoko_txdata
      [("to", .vstr "0xaa"), ("maxFeePerGas", .vstr "zzz"), ("gasPrice", .vstr "30")]).gasPrice
      = none := by
  refine ⟨by decide, by decide, by decide⟩

/-- A parse without a leading minus sign is non-negative. -/
theorem parseSigned_nonneg (core : List Char → Option Nat) (l : List Char) (i : Int)
    (hh : l.head? ≠ some '-') (hp : parseSigned? core l = some i) : 0 ≤ i := by
  unfold parseSigned? at hp
  split at hp
  · simp at hh
  · rename_i rest
    cases hcr : core rest with
    | none => rw [hcr] at hp; simp at hp
    | some v =>
      rw [hcr] at hp
      simp at hp
      omega
  · cases hcr : core l with
    | none => rw [hcr] at hp; simp at hp
    | some v =>
      rw [hcr] at hp
      simp at hp
      omega

/-- `hex_or_int_to_int` yields a non-negative value on inputs that do not
encode a negative number. -/
theorem conv_nonneg (v : PyVal) (i : Int) (hn : negEnc v = false)
    (hc : hex_or_int_to_int v = some i) : 0 ≤ i := by
  cases v with
  | vint j =>
    simp [hex_or_int_to_int] at hc
    simp [negEnc] at hn
    omega
  | vstr s =>
    simp only [hex_or_int_to_int] at hc
    have hh : (pyStripChars s.toList).head? ≠ some '-' := by
      simp only [negEnc, beq_eq_false_iff_ne, ne_eq] at hn
      exact hn
    split at hc
    · exact parseSigned_nonneg parse16core _ i hh hc
    · exact parseSigned_nonneg parse10core _ i hh hc
  | vnone => simp [hex_or_int_to_int] at hc
  | vother t => simp [hex_or_int_to_int] at hc

/-- `d.get(k)` is `None` or a value of the dict. -/
theorem getV_cases (d : PyDict) (k : String) :
    getV d k = .vnone ∨ ∃ kv ∈ d, getV d k = kv.2 := by
  unfold getV
  cases hf : d.find? (fun kv => kv.1 == k) with
  | none => left; rfl
  | some kv => right; exact ⟨kv, List.mem_of_find?_eq_some hf, rfl⟩

/-- `d.get(k, dflt)` is the default or a value of the dict. -/
theorem getVD_cases (d : PyDict) (k : String) (dflt : PyVal) :
    getVD d k dflt = dflt ∨ ∃ kv ∈ d, getVD d k dflt = kv.2 := by
  unfold getVD
  cases hf : d.find? (fun kv => kv.1 == k) with
  | none => left; rfl
  | some kv => right; exact ⟨kv, List.mem_of_find?_eq_some hf, rfl⟩

/-- Lookups in a dict free of negative encodings are free of negative
encodings. -/
theorem negEnc_getV (d : PyDict) (k : String) (hd : ∀ kv ∈ d, negEnc kv.2 = false) :
    negEnc (getV d k) = false := by
  rcases getV_cases d k with h | ⟨kv, hm, h⟩ <;> rw [h]
  · rfl
  · exact hd kv hm

/-- Same, with a default. -/
theorem negEnc_getVD (d : PyDict) (k : String) (dflt : PyVal)
    (hd : ∀ kv ∈ d, negEnc kv.2 = false) (hdf : negEnc dflt = false) :
    negEnc (getVD d k dflt) = false := by
  rcases getVD_cases d k dflt with h | ⟨kv, hm, h⟩ <;> rw [h]
  · exact hdf
  · exact hd kv hm

/-- `or`-chains preserve freedom from negative encodings. -/
theorem negEnc_pyOr (a b : PyVal) (ha : negEnc a = false) (hb : negEnc b = false) :
    negEnc (pyOr a b) = false := by
  unfold pyOr
  split <;> assumption

/-- A guarded conversion that produced a value ran `hex_or_int_to_int`. -/
theorem tryConvFee_ok_some (v : PyVal) (i : Int) (h : tryConvFee v = .ok (some i)) :
    hex_or_int_to_int v = some i := by
  unfold tryConvFee at h
  by_cases ht : v.truthy = true
  · rw [if_pos ht] at h
    cases hcv : hex_or_int_to_int v with
    | none => rw [hcv] at h; simp at h
    | some j =>
      rw [hcv] at h
      simp at h
      rw [h]
  · rw [if_neg ht] at h
    simp at h

/-- A present `maxFeePerGas` came from converting the raw field. -/
theorem feeConvert_fst_conv (mf mp gp : PyVal) (i : Int)
    (h : (feeConvert mf mp gp).1 = some i) : hex_or_int_to_int mf = some i := by
  unfold feeConvert at h
  cases h1 : tryConvFee mf with
  | error e => rw [h1] at h; simp at h
  | ok a =>
    rw [h1] at h
    have ha : a = some i := by
      cases h2 : tryConvFee mp with
      | error e => rw [h2] at h; exact h
      | ok b =>
        rw [h2] at h
        cases h3 : tryConvFee gp with
        | error e => rw [h3] at h; exact h
        | ok c => rw [h3] at h; exact h
    rw [ha] at h1
    exact tryConvFee_ok_some mf i h1

/-- A present `maxPriorityFeePerGas` came from converting the raw field. -/
theorem feeConvert_snd_conv (mf mp gp : PyVal) (i : Int)
    (h : (feeConvert mf mp gp).2.1 = some i) : hex_or_int_to_int mp = some i := by
  unfold feeConvert at h
  cases h1 : tryConvFee mf with
  | error e => rw [h1] at h; simp at h
  | ok a =>
    rw [h1] at h
    cases h2 : tryConvFee mp with
    | error e => rw [h2] at h; simp at h
    | ok b =>
      rw [h2] at h
      have hb : b = some i := by
        cases h3 : tryConvFee gp with
        | error e => rw [h3] at h; exact h
        | ok c => rw [h3] at h; exact h
      rw [hb] at h2
      exact tryConvFee_ok_some mp i h2

/-- A present `gasPrice` came from converting the raw field. -/
theorem feeConvert_thd_conv (mf mp gp : PyVal) (i : Int)
    (h : (feeConvert mf mp gp).2.2 = some i) : hex_or_int_to_int gp = some i := by
  unfold feeConvert at h
  cases h1 : tryConvFee mf with
  | error e => rw [h1] at h; simp at h
  | ok a =>
    rw [h1] at h
    cases h2 : tryConvFee mp with
    | error e => rw [h2] at h; simp at h
    | ok b =>
      rw [h2] at h
      cases h3 : tryConvFee gp with
      | error e => rw [h3] at h; simp at h
      | ok c =>
        rw [h3] at h
        have hc : c = some i := h
        rw [hc] at h3
        exact tryConvFee_ok_some gp i h3

/-- C9 (amended): for every descriptor whose values do not encode negative
numbers (no negative ints, no strings whose stripped form starts with a
minus sign), the intent's `value` and every present fee field are
non-negative.  Without that restriction the invariant fails: the source
passes negative encodings straight through. -/
theorem intent_fields_nonneg (d : PyDict) (hd : ∀ kv ∈ d, negEnc kv.2 = false) :
    0 ≤ (prepare_tx_from_kyoko_txdata d).value ∧
    (∀ i : Int, (prepare_tx_from_kyoko_txdata d).maxFeePerGas = some i → 0 ≤ i) ∧
    (∀ i : Int, (prepare_tx_from_kyoko_txdata d).maxPriorityFeePerGas = some i → 0 ≤ i) ∧
    (∀ i : Int, (prepare_tx_from_kyoko_txdata d).gasPrice = some i → 0 ≤ i) := by
  have hval : (prepare_tx_from_kyoko_txdata d).value
      = (hex_or_int_to_int (getVD d "value" (.vint 0))).getD 0 := rfl
  obtain ⟨hf1, hf2, hf3⟩ := prepare_fee_fields d
  have hmfne : negEnc (mfRaw d) = false :=
    negEnc_pyOr _ _ (negEnc_getV d _ hd) (negEnc_getV d _ hd)
  have hmpne : negEnc (mpRaw d) = false :=
    negEnc_pyOr _ _ (negEnc_getV d _ hd) (negEnc_getV d _ hd)
  have hgpne : negEnc (gpRaw d) = false :=
    negEnc_pyOr _ _ (negEnc_getV d _ hd) (negEnc_getV d _ hd)
  refine ⟨?_, ?_, ?_, ?_⟩
  · rw [hval]
    cases hcv : hex_or_int_to_int (getVD d "value" (.vint 0)) with
    | none => simp
    | some i =>
      simp only [Option.getD_some]
      exact conv_nonneg _ i (negEnc_getVD d "value" (.vint 0) hd rfl) hcv
  · intro i h
    rw [hf1] at h
    exact conv_nonneg _ i hmfne (feeConvert_fst_conv _ _ _ i h)
  · intro i h
    rw [hf2] at h
    exact conv_nonneg _ i hmpne (feeConvert_snd_conv _ _ _ i h)
  · intro i h
    rw [hf3] at h
    exact conv_nonneg _ i hgpne (feeConvert_thd_conv _ _ _ i h)

/-- Witness for C9: a descriptor with decimal and hex fee strings yields a
non-negative value and fee field. -/
theorem intent_fields_nonneg_witness :
    0 ≤ (prepare_tx_from_kyoko_txdata
      [("to", .vstr "0xaa"), ("value", .vstr "26"), ("gasPrice", .vstr "0x1a")]).value ∧
    (∀ i : Int, (prepare_tx_from_kyoko_txdata
      [("to", .vstr "0xaa"), ("value", .vstr "26"), ("gasPrice", .vstr "0x1a")]).gasPrice
        = some i → 0 ≤ i) ∧
    (prepare_tx_from_kyoko_txdata
      [("to", .vstr "0xaa"), ("value", .vstr "26"), ("gasPrice", .vstr "0x1a")]).value = 26 := by
  have h := intent_fields_nonneg
    [("to", .vstr "0xaa"), ("value", .vstr "26"), ("gasPrice", .vstr "0x1a")] (by decide)
  exact ⟨h.1, h.2.2.2, by decide⟩

/-- Counterexample for C9 as stated: a descriptor with `value = -5` (native
int) or `value = " -7 "` (string) produces a negative intent value. -/
theorem intent_negative_value_cex :
    (prepare_tx_from_kyoko_txdata [("to", .vstr "0xaa"), ("value", .vint (-5))]).value = -5 ∧
    (prepare_tx_from_kyoko_txdata [("to", .vstr "0xaa"), ("value", .vint (-5))]).value < 0 ∧
    (prepare_tx_from_kyoko_txdata [("to", .vstr "0xbb"), ("value", .vstr " -7 ")]).value
      = -7 := by
  refine ⟨by decide, by decide, by decide⟩
